import Mathlib

/-!
Shallow embedding of `src/main.py` (poker river-consistency search).

Cards are typed values (rank 2..14 with Ace = 14, suit in four values)
instead of the strings of the Python source; the '??' sentinel of the
source is modelled as `Option Card` with `none` meaning unknown.
Python exceptions are modelled with `Except String`.
-/

/-- A playing card: rank index 0..12 standing for 2..14 (Ace high),
suit index 0..3 standing for s, h, d, c. -/
structure Card where
  rank : Fin 13
  suit : Fin 4
deriving DecidableEq, Repr, Fintype

/-- Poker value of a card rank: 2..14, Ace = 14. -/
def rankValue (c : Card) : Nat := c.rank.val + 2

/-- Modelled from the spec: the hand evaluator of the third-party deuces
library (`Evaluator._five`) is not under src/. Per spec section 4.1, the
distinct rank values of a hand, ascending. -/
def distinctValues (cs : List Card) : List Nat :=
  ((List.range 13).map (fun i => i + 2)).filter (fun v => cs.any (fun c => rankValue c == v))

/-- Modelled from the spec: rank multiplicities, as (value, count) pairs sorted
by count descending then value descending (spec 4.1 tie-break priority). -/
def sortedGroups (cs : List Card) : List (Nat × Nat) :=
  let groups := (distinctValues cs).map
    (fun v => (v, cs.countP (fun c => rankValue c == v)))
  List.insertionSort (fun a b => b.2 < a.2 ∨ (b.2 = a.2 ∧ b.1 ≤ a.1)) groups

/-- Modelled from the spec: flush detection (all cards share a suit). -/
def isFlush (cs : List Card) : Bool :=
  match cs with
  | [] => true
  | c :: rest => rest.all (fun d => d.suit == c.suit)

/-- Modelled from the spec: straight detection over five distinct consecutive
ranks, with the wheel A-2-3-4-5 ranked as a 5-high straight. Returns the
high-card value of the straight, or `none`. -/
def straightHigh (cs : List Card) : Option Nat :=
  let vs := distinctValues cs
  if vs = [2, 3, 4, 5, 14] then some 5
  else if vs.length = 5 ∧ vs.getLastD 0 - vs.headD 0 = 4 then some (vs.getLastD 0)
  else none

/-- Modelled from the spec: hand category code, lower is better.
1 = Straight Flush, 2 = Four of a Kind, 3 = Full House, 4 = Flush,
5 = Straight, 6 = Three of a Kind, 7 = Two Pair, 8 = Pair, 9 = High Card. -/
def handCategory (cs : List Card) : Nat :=
  let counts := (sortedGroups cs).map Prod.snd
  if (straightHigh cs).isSome && isFlush cs then 1
  else if counts.headD 0 = 4 then 2
  else if counts.headD 0 = 3 ∧ counts.getD 1 0 = 2 then 3
  else if isFlush cs then 4
  else if (straightHigh cs).isSome then 5
  else if counts.headD 0 = 3 then 6
  else if counts.headD 0 = 2 ∧ counts.getD 1 0 = 2 then 7
  else if counts.headD 0 = 2 then 8
  else 9

/-- Modelled from the spec: the ranks compared to break ties within a
category — the straight high card for straights, otherwise the
multiplicity-group ranks in descending priority then kickers descending. -/
def tiebreakRanks (cs : List Card) : List Nat :=
  if (straightHigh cs).isSome then [(straightHigh cs).getD 0]
  else (sortedGroups cs).map Prod.fst

/-- Modelled from the spec: pack a tie-break rank list into a number where a
lexicographically better (higher-rank) list gives a lower number. -/
def tbCode (l : List Nat) : Nat :=
  l.foldl (fun acc v => acc * 16 + (15 - v)) 0

/-- Modelled from the spec: total strength of a five-card hand, lower is
better; the category dominates, ties broken by `tiebreakRanks`. Stands in for
the deuces five-card evaluation that src/ delegates to. -/
def five_eval (cs : List Card) : Nat :=
  handCategory cs * 16 ^ 5 + tbCode (tiebreakRanks cs)

/-- Minimum of a list of scores, as deuces computes it: fold of `min`. -/
def listMin : List Nat → Nat
  | [] => 0
  | x :: xs => xs.foldl min x

/-- Modelled from the spec: the deuces evaluation of a seven-card hand is the
minimum five-card strength over all C(7,5) = 21 five-card subsets. -/
def seven_eval (cs : List Card) : Nat :=
  listMin ((List.sublistsLen 5 cs).map five_eval)

/-- Embeds `evaluate_hand` (src/main.py lines 20-37): dispatch on the card
count, five and seven cards evaluated, anything else raises (re-raised as a
RuntimeError by the wrapper; modelled as `Except.error`). -/
def evaluate_hand (cs : List Card) : Except String Nat :=
  if cs.length = 5 then Except.ok (five_eval cs)
  else if cs.length = 7 then Except.ok (seven_eval cs)
  else Except.error "Hand must have 5 or 7 cards"

/-- Category code of a strength value (deuces get_rank_class analogue). -/
def catOf (s : Nat) : Nat := s / 16 ^ 5

/-- Embeds `hand_class` (src/main.py lines 40-47): readable class of a five
or seven card hand, error otherwise. -/
def hand_class (cs : List Card) : Except String Nat :=
  if cs.length = 5 then Except.ok (catOf (five_eval cs))
  else if cs.length = 7 then Except.ok (catOf (seven_eval cs))
  else Except.error "Hand must have 5 or 7 cards"

/-- The result dictionary of `check_hand_improvement` (src/main.py 64-69). -/
structure ImprovementData where
  baseline_score : Nat
  player_score : Nat
  improvement : Int
  hand_type : Nat
deriving DecidableEq, Repr

/-- Embeds `check_hand_improvement` (src/main.py lines 50-69): player score of
hole plus river, baseline score of the river alone, improvement is baseline
minus player (lower scores are better), hand type of the full hand. -/
def check_hand_improvement (player_cards river_cards : List Card) :
    Except String ImprovementData := do
  let player_score ← evaluate_hand (player_cards ++ river_cards)
  let baseline_score ← evaluate_hand river_cards
  let ht ← hand_class (player_cards ++ river_cards)
  Except.ok ⟨baseline_score, player_score, (baseline_score : Int) - (player_score : Int), ht⟩

/-- One row of the players table: player number, the two hole-card columns
(`none` models the '??' sentinel string), and the Estimation column. -/
structure PlayerRow where
  player_no : Nat
  card1 : Option Card
  card2 : Option Card
  estimation : Int
deriving DecidableEq, Repr

/-- The two hole cards of a row when both are known, as the source's
`player_cards` list; `none` when '??' appears in either slot. -/
def cardsOfRow (p : PlayerRow) : Option (List Card) :=
  match p.card1, p.card2 with
  | some a, some b => some [a, b]
  | _, _ => none

/-- One entry of the list built by `analyze_players_for_river`
(src/main.py 87-93). -/
structure AnalysisResult where
  player_no : Nat
  player_cards : List Card
  improvement : Int
  player_score : Nat
  hand_type : Nat
deriving DecidableEq, Repr

/-- Comparison used to model Python `results.sort(key=improvement,
reverse=True)`: larger improvement first. -/
def impGeP (a b : AnalysisResult) : Prop := b.improvement ≤ a.improvement

instance : DecidableRel impGeP :=
  fun a b => inferInstanceAs (Decidable (b.improvement ≤ a.improvement))

instance : IsTotal AnalysisResult impGeP :=
  ⟨fun a b => le_total b.improvement a.improvement⟩

instance : IsTrans AnalysisResult impGeP :=
  ⟨fun _ _ _ h1 h2 => le_trans h2 h1⟩

/-- The entry `analyze_players_for_river` appends for one player row, when the
row's cards are known: `none` for skipped (unknown-card) rows, error data
never arises here because it is produced monadically below. -/
def rowEntry (river : List Card) (p : PlayerRow) : Option AnalysisResult :=
  match cardsOfRow p with
  | none => none
  | some pc =>
      match check_hand_improvement pc river with
      | Except.error _ => none
      | Except.ok d => some ⟨p.player_no, pc, d.improvement, d.player_score, d.hand_type⟩

/-- The per-row step of the loop of `analyze_players_for_river`
(src/main.py 77-93): skip a row with an unknown card, otherwise append its
analysis entry (an exception from the analysis propagates). -/
def analyzeStep (river : List Card) (acc : List AnalysisResult) (p : PlayerRow) :
    Except String (List AnalysisResult) :=
  match cardsOfRow p with
  | none => Except.ok acc
  | some pc => do
      let d ← check_hand_improvement pc river
      Except.ok (acc ++ [(⟨p.player_no, pc, d.improvement, d.player_score, d.hand_type⟩ : AnalysisResult)])

/-- Embeds `analyze_players_for_river` (src/main.py lines 73-97): rows with an
unknown card are skipped, each remaining row is analyzed against the river
(exceptions propagate), and the result list is sorted by improvement
descending (Python's stable sort, modelled as a stable insertion sort). -/
def analyze_players_for_river (players : List PlayerRow) (river : List Card) :
    Except String (List AnalysisResult) := do
  let results ← players.foldlM (analyzeStep river) []
  Except.ok (List.insertionSort impGeP results)

/-- The `player_evaluations` dict of `validate_river_against_evaluations`
(src/main.py 109-111): maps a player number to its Estimation, a later row
with the same number overwriting an earlier one. -/
def player_evaluation (players : List PlayerRow) (no : Nat) : Int :=
  players.foldl (fun acc p => if p.player_no = no then p.estimation else acc) 0

/-- The data carried by one formatted match/conflict string of
`validate_river_against_evaluations`: the player number and improvement the
string interpolates. -/
structure ValEntry where
  player_no : Nat
  improvement : Int
deriving DecidableEq, Repr

/-- The result dictionary of `validate_river_against_evaluations`
(src/main.py 143-149). -/
structure ValidationResult where
  is_valid : Bool
  conflicts : List ValEntry
  matchesList : List ValEntry
  neutral_count : Nat
  analysis : List AnalysisResult
deriving DecidableEq, Repr

/-- The body of the per-result loop of `validate_river_against_evaluations`
(src/main.py 117-139), acting on the (matches, conflicts, neutral_count)
accumulator. Estimation 0 counts as neutral, 1 matches iff improvement > 0,
-1 matches iff improvement <= 0, any other value is silently skipped. -/
def tallyStep (evalOf : Nat → Int) (acc : List ValEntry × List ValEntry × Nat)
    (r : AnalysisResult) : List ValEntry × List ValEntry × Nat :=
  let e := evalOf r.player_no
  let improved := decide (0 < r.improvement)
  if e = 0 then (acc.1, acc.2.1, acc.2.2 + 1)
  else if e = 1 then
    if improved then (acc.1 ++ [⟨r.player_no, r.improvement⟩], acc.2.1, acc.2.2)
    else (acc.1, acc.2.1 ++ [⟨r.player_no, r.improvement⟩], acc.2.2)
  else if e = -1 then
    if !improved then (acc.1 ++ [⟨r.player_no, r.improvement⟩], acc.2.1, acc.2.2)
    else (acc.1, acc.2.1 ++ [⟨r.player_no, r.improvement⟩], acc.2.2)
  else acc

/-- Embeds `validate_river_against_evaluations` (src/main.py lines 100-149):
analyze all players, tally matches, conflicts and neutral players against the
Estimation column, valid iff no conflicts. -/
def validate_river_against_evaluations (players : List PlayerRow)
    (river : List Card) : Except String ValidationResult := do
  let analysis ← analyze_players_for_river players river
  let t := analysis.foldl (tallyStep (player_evaluation players)) ([], [], 0)
  Except.ok ⟨t.2.1.isEmpty, t.2.1, t.1, t.2.2, analysis⟩

/-- The per-candidate step of `find_valid_rivers` (src/main.py 158-168):
validate one river and append it to the collection when valid. -/
def searchStep (players : List PlayerRow) (acc : List (List Card × ValidationResult))
    (river : List Card) : Except String (List (List Card × ValidationResult)) := do
  let v ← validate_river_against_evaluations players river
  Except.ok (if v.is_valid then acc ++ [(river, v)] else acc)

/-- Embeds `find_valid_rivers` (src/main.py lines 152-171): validate the first
`max_to_check` candidate rivers, collecting, in order, those found valid.
Exceptions from validation propagate and abort the search. -/
def find_valid_rivers (players : List PlayerRow) (river_combos : List (List Card))
    (max_to_check : Nat) : Except String (List (List Card × ValidationResult)) :=
  (river_combos.take max_to_check).foldlM (searchStep players) []

/-- `find_valid_rivers` as called with its default argument
`max_to_check=1000` (src/main.py line 152). -/
def find_valid_rivers_default (players : List PlayerRow)
    (river_combos : List (List Card)) : Except String (List (List Card × ValidationResult)) :=
  find_valid_rivers players river_combos 1000

/-- Embeds `deck` (src/main.py lines 174-177): the 52 cards, rank-major
(A, K, ..., 2 by suits s, h, d, c in the source order). -/
def deck : List Card :=
  ((List.range 13).reverse.map (fun r => r)).flatMap
    (fun r => (List.range 4).filterMap
      (fun s => if hr : r < 13 then if hs : s < 4 then some ⟨⟨r, hr⟩, ⟨s, hs⟩⟩ else none else none))

/-- Python set add on the known-cards set, modelled as a deduplicating list
(membership is the only observation the source makes of the set). -/
def addKnown (ks : List Card) (c : Card) : List Card :=
  if c ∈ ks then ks else ks ++ [c]

/-- The result dictionary of `build_exclusion_table` (src/main.py 199-203);
an unknowns entry is (player number, column index) with 1 for Card 1 and
2 for Card 2. -/
structure ExclusionTable where
  known_cards : List Card
  unknowns : List (Nat × Nat)
  remaining_deck : List Card
deriving DecidableEq, Repr

/-- The per-row step of `build_exclusion_table` over both card columns. -/
def exclusionStep (acc : List Card × List (Nat × Nat)) (p : PlayerRow) :
    List Card × List (Nat × Nat) :=
  let acc1 := match p.card1 with
    | some c => (addKnown acc.1 c, acc.2)
    | none => (acc.1, acc.2 ++ [(p.player_no, 1)])
  match p.card2 with
  | some c => (addKnown acc1.1 c, acc1.2)
  | none => (acc1.1, acc1.2 ++ [(p.player_no, 2)])

/-- Embeds `build_exclusion_table` (src/main.py lines 185-203): collect the
known cards and unknown slots of all rows, the remaining deck is the deck
filtered of known cards. -/
def build_exclusion_table (players : List PlayerRow) : ExclusionTable :=
  let kb := players.foldl exclusionStep ([], [])
  ⟨kb.1, kb.2, deck.filter (fun c => decide (¬ c ∈ kb.1))⟩

/-- The unsorted analysis list: one entry per player row with known cards, in
row order (what `analyze_players_for_river` builds before sorting). -/
def baseAnalysis (players : List PlayerRow) (river : List Card) : List AnalysisResult :=
  players.filterMap (rowEntry river)

/-- The improvement the analysis computes for a player with known hole cards
a, b against a five-card river: baseline strength minus seven-card strength. -/
def known_improvement (river : List Card) (a b : Card) : Int :=
  (five_eval river : Int) - (seven_eval ([a, b] ++ river) : Int)

/-- The match entry, if any, the validation loop produces for one analysis
entry: Estimation 1 with improvement, or Estimation -1 without. -/
def matchEntry (evalOf : Nat → Int) (r : AnalysisResult) : Option ValEntry :=
  if evalOf r.player_no = 1 ∧ 0 < r.improvement then some ⟨r.player_no, r.improvement⟩
  else if evalOf r.player_no = -1 ∧ ¬ 0 < r.improvement then some ⟨r.player_no, r.improvement⟩
  else none

/-- The conflict entry, if any, the validation loop produces for one analysis
entry: Estimation 1 without improvement, or Estimation -1 with. -/
def conflictEntry (evalOf : Nat → Int) (r : AnalysisResult) : Option ValEntry :=
  if evalOf r.player_no = 1 ∧ ¬ 0 < r.improvement then some ⟨r.player_no, r.improvement⟩
  else if evalOf r.player_no = -1 ∧ 0 < r.improvement then some ⟨r.player_no, r.improvement⟩
  else none

/-- Whether the validation loop counts an analysis entry as neutral. -/
def neutralTest (evalOf : Nat → Int) (r : AnalysisResult) : Bool :=
  decide (evalOf r.player_no = 0)

/-- What the search driver keeps of one candidate river: the river paired with
its validation when valid, nothing otherwise (and nothing on error, though the
search as a whole aborts then). -/
def validPick (players : List PlayerRow) (river : List Card) :
    Option (List Card × ValidationResult) :=
  match validate_river_against_evaluations players river with
  | Except.ok v => if v.is_valid then some (river, v) else none
  | Except.error _ => none

/-- Whether both hole cards of a row are known and its Estimation is 0:
the players the source counts as neutral. -/
def isNeutralRow (p : PlayerRow) : Bool :=
  p.card1.isSome && p.card2.isSome && (p.estimation == 0)

/-- Boolean success test on an evaluation result. -/
def evalIsOk (e : Except String Nat) : Bool :=
  match e with
  | Except.ok _ => true
  | Except.error _ => false

/- Concrete material for witnesses and counterexamples. Card values name the
rank index (value minus 2, so 12 = Ace) and suit index (0 = s, 1 = h,
2 = d, 3 = c). -/

/-- Sample river: Ad 7c 7d 2s 9h (the end-to-end scenario of spec section 8). -/
def wBoard : List Card := [⟨12, 2⟩, ⟨5, 3⟩, ⟨5, 2⟩, ⟨0, 0⟩, ⟨7, 1⟩]

/-- Player 1 of the sample: As Ah, Estimation 1. -/
def wP1 : PlayerRow := ⟨1, some ⟨12, 0⟩, some ⟨12, 1⟩, 1⟩

/-- Player 2 of the sample: Ks Kh, Estimation -1. -/
def wP2 : PlayerRow := ⟨2, some ⟨11, 0⟩, some ⟨11, 1⟩, -1⟩

/-- Player 3 of the sample: an unknown first hole card, Estimation 0. -/
def wP3 : PlayerRow := ⟨3, none, some ⟨3, 0⟩, 0⟩

/-- The sample player table. -/
def wPlayers : List PlayerRow := [wP1, wP2, wP3]

/-- A seven-card hand: As Ah plus the sample river. -/
def wSeven : List Card := [⟨12, 0⟩, ⟨12, 1⟩] ++ wBoard

/-- A six-card hand (first six cards of `wSeven`). -/
def wSix : List Card := [⟨12, 0⟩, ⟨12, 1⟩, ⟨12, 2⟩, ⟨5, 3⟩, ⟨5, 2⟩, ⟨0, 0⟩]

/-- Two players assigned the same card As: a duplicate assignment. -/
def dupPlayers : List PlayerRow :=
  [⟨1, some ⟨12, 0⟩, some ⟨12, 1⟩, 1⟩, ⟨2, some ⟨12, 0⟩, some ⟨11, 1⟩, -1⟩]

/-- 1001 copies of the sample river: a candidate sequence longer than the
default cap of the search driver. -/
def bigCombos : List (List Card) := List.replicate 1001 wBoard

/-- The validation result of any river against an empty player table. -/
def emptyValidation : ValidationResult := ⟨true, [], [], 0, []⟩

/-- The hole cards of player 1 (As Ah). -/
def wHole : List Card := [⟨12, 0⟩, ⟨12, 1⟩]

/-- The analysis list `analyze_players_for_river` computes for the sample
players and river (player 1 makes a full house, player 2 two pair). -/
def wAnalysis : List AnalysisResult :=
  [⟨1, [⟨12, 0⟩, ⟨12, 1⟩], 5275989, 3145752, 3⟩,
   ⟨2, [⟨11, 0⟩, ⟨11, 1⟩], 1081068, 7340673, 7⟩]

/- Helper lemmas about the embedding. -/

theorem foldl_min_le_init (xs : List Nat) (x : Nat) : xs.foldl min x ≤ x := by
  induction xs generalizing x with
  | nil => exact le_refl x
  | cons y ys ih => exact le_trans (ih (min x y)) (min_le_left x y)

theorem foldl_min_le_mem {a : Nat} (xs : List Nat) (x : Nat) (ha : a ∈ xs) :
    xs.foldl min x ≤ a := by
  induction xs generalizing x with
  | nil => cases ha
  | cons y ys ih =>
    rcases List.mem_cons.mp ha with h | h
    · subst h
      exact le_trans (foldl_min_le_init ys (min x a)) (min_le_right x a)
    · exact ih (min x y) h

theorem foldl_min_mem (xs : List Nat) (x : Nat) :
    xs.foldl min x = x ∨ xs.foldl min x ∈ xs := by
  induction xs generalizing x with
  | nil => exact Or.inl rfl
  | cons y ys ih =>
    have hstep : (y :: ys).foldl min x = ys.foldl min (min x y) := rfl
    rw [hstep]
    rcases ih (min x y) with h | h
    · rw [h]
      rcases Nat.le_total x y with hxy | hyx
      · exact Or.inl (min_eq_left hxy)
      · exact Or.inr (by rw [min_eq_right hyx]; exact List.mem_cons_self y ys)
    · exact Or.inr (List.mem_cons_of_mem y h)

theorem listMin_le {a : Nat} {l : List Nat} (ha : a ∈ l) : listMin l ≤ a := by
  cases l with
  | nil => cases ha
  | cons x xs =>
    rcases List.mem_cons.mp ha with h | h
    · subst h; exact foldl_min_le_init xs a
    · exact foldl_min_le_mem xs x h

theorem listMin_mem {l : List Nat} (hl : l ≠ []) : listMin l ∈ l := by
  cases l with
  | nil => exact absurd rfl hl
  | cons x xs =>
    have hstep : listMin (x :: xs) = xs.foldl min x := rfl
    rw [hstep]
    rcases foldl_min_mem xs x with h | h
    · rw [h]; exact List.mem_cons_self x xs
    · exact List.mem_cons_of_mem x h

theorem check_hand_improvement_ok (pc rc : List Card) (h2 : pc.length = 2)
    (h5 : rc.length = 5) :
    check_hand_improvement pc rc =
      Except.ok ⟨five_eval rc, seven_eval (pc ++ rc),
        (five_eval rc : Int) - (seven_eval (pc ++ rc) : Int),
        catOf (seven_eval (pc ++ rc))⟩ := by
  have h7 : (pc ++ rc).length = 7 := by simp [h2, h5]
  simp [check_hand_improvement, evaluate_hand, hand_class, h7, h5]
  rfl

theorem rowEntry_known (river : List Card) (p : PlayerRow) (a b : Card)
    (hc1 : p.card1 = some a) (hc2 : p.card2 = some b) (h5 : river.length = 5) :
    rowEntry river p = some ⟨p.player_no, [a, b], known_improvement river a b,
      seven_eval ([a, b] ++ river), catOf (seven_eval ([a, b] ++ river))⟩ := by
  have hc : cardsOfRow p = some [a, b] := by simp [cardsOfRow, hc1, hc2]
  simp [rowEntry, hc, check_hand_improvement_ok [a, b] river rfl h5, known_improvement]

theorem rowEntry_unknown (river : List Card) (p : PlayerRow)
    (hc : cardsOfRow p = none) : rowEntry river p = none := by
  simp [rowEntry, hc]

theorem analyze_fold (river : List Card) (h5 : river.length = 5) :
    ∀ (ps : List PlayerRow) (acc : List AnalysisResult),
      ps.foldlM (analyzeStep river) acc = Except.ok (acc ++ baseAnalysis ps river) := by
  intro ps
  induction ps with
  | nil =>
    intro acc
    simp only [List.foldlM_nil, baseAnalysis, List.filterMap_nil, List.append_nil]
    rfl
  | cons p ps ih =>
    intro acc
    rw [List.foldlM_cons]
    rcases hc : cardsOfRow p with _ | pc
    · have hstep : analyzeStep river acc p = Except.ok acc := by
        simp [analyzeStep, hc]
      rw [hstep]
      have hrow : rowEntry river p = none := rowEntry_unknown river p hc
      show ps.foldlM (analyzeStep river) acc = _
      rw [ih acc]
      simp [baseAnalysis, hrow]
    · obtain ⟨a, b, hc1, hc2, hpc⟩ :
        ∃ a b, p.card1 = some a ∧ p.card2 = some b ∧ pc = [a, b] := by
        rcases h1 : p.card1 with _ | a <;> rcases h2 : p.card2 with _ | b <;>
          simp [cardsOfRow, h1, h2] at hc
        exact ⟨a, b, rfl, rfl, hc.symm⟩
      subst hpc
      have hchk := check_hand_improvement_ok [a, b] river rfl h5
      have hstep : analyzeStep river acc p =
          Except.ok (acc ++ [(⟨p.player_no, [a, b], known_improvement river a b,
            seven_eval ([a, b] ++ river), catOf (seven_eval ([a, b] ++ river))⟩ : AnalysisResult)]) := by
        simp [analyzeStep, hc, hchk, known_improvement]
        rfl
      rw [hstep]
      have hrow := rowEntry_known river p a b hc1 hc2 h5
      show ps.foldlM (analyzeStep river) _ = _
      rw [ih]
      simp [baseAnalysis, hrow]

theorem analyze_eq (ps : List PlayerRow) (river : List Card) (h5 : river.length = 5) :
    analyze_players_for_river ps river =
      Except.ok (List.insertionSort impGeP (baseAnalysis ps river)) := by
  unfold analyze_players_for_river
  rw [analyze_fold river h5 ps []]
  rfl

theorem tallyStep_neutral (evalOf : Nat → Int) (acc : List ValEntry × List ValEntry × Nat)
    (r : AnalysisResult) (h0 : evalOf r.player_no = 0) :
    tallyStep evalOf acc r = (acc.1, acc.2.1, acc.2.2 + 1) := by
  simp [tallyStep, h0]

theorem tallyStep_match (evalOf : Nat → Int) (acc : List ValEntry × List ValEntry × Nat)
    (r : AnalysisResult)
    (h : (evalOf r.player_no = 1 ∧ 0 < r.improvement) ∨
         (evalOf r.player_no = -1 ∧ ¬ 0 < r.improvement)) :
    tallyStep evalOf acc r = (acc.1 ++ [⟨r.player_no, r.improvement⟩], acc.2.1, acc.2.2) := by
  rcases h with ⟨h1, himp⟩ | ⟨h1, himp⟩ <;> simp [tallyStep, h1, himp]

theorem tallyStep_conflict (evalOf : Nat → Int) (acc : List ValEntry × List ValEntry × Nat)
    (r : AnalysisResult)
    (h : (evalOf r.player_no = 1 ∧ ¬ 0 < r.improvement) ∨
         (evalOf r.player_no = -1 ∧ 0 < r.improvement)) :
    tallyStep evalOf acc r = (acc.1, acc.2.1 ++ [⟨r.player_no, r.improvement⟩], acc.2.2) := by
  rcases h with ⟨h1, himp⟩ | ⟨h1, himp⟩ <;> simp [tallyStep, h1, himp]

theorem tallyStep_skip (evalOf : Nat → Int) (acc : List ValEntry × List ValEntry × Nat)
    (r : AnalysisResult) (h0 : ¬ evalOf r.player_no = 0) (h1 : ¬ evalOf r.player_no = 1)
    (h2 : ¬ evalOf r.player_no = -1) : tallyStep evalOf acc r = acc := by
  simp [tallyStep, h0, h1, h2]

theorem matchEntry_eq_none_left (evalOf : Nat → Int) (r : AnalysisResult)
    (h : (evalOf r.player_no = 1 → ¬ 0 < r.improvement) ∧
         (evalOf r.player_no = -1 → 0 < r.improvement)) :
    matchEntry evalOf r = none := by
  rcases h with ⟨ha, hb⟩
  unfold matchEntry
  split_ifs with h1 h2
  · exact absurd h1.2 (ha h1.1)
  · exact absurd (hb h2.1) h2.2
  · rfl

theorem conflictEntry_eq_none_left (evalOf : Nat → Int) (r : AnalysisResult)
    (h : (evalOf r.player_no = 1 → 0 < r.improvement) ∧
         (evalOf r.player_no = -1 → ¬ 0 < r.improvement)) :
    conflictEntry evalOf r = none := by
  rcases h with ⟨ha, hb⟩
  unfold conflictEntry
  split_ifs with h1 h2
  · exact absurd (ha h1.1) h1.2
  · exact absurd h2.2 (hb h2.1)
  · rfl

theorem tally_fold (evalOf : Nat → Int) :
    ∀ (l : List AnalysisResult) (m c : List ValEntry) (n : Nat),
      l.foldl (tallyStep evalOf) (m, c, n) =
        (m ++ l.filterMap (matchEntry evalOf), c ++ l.filterMap (conflictEntry evalOf),
          n + l.countP (neutralTest evalOf)) := by
  intro l
  induction l with
  | nil => intro m c n; simp
  | cons r l ih =>
    intro m c n
    rw [List.foldl_cons]
    by_cases h0 : evalOf r.player_no = 0
    · rw [tallyStep_neutral evalOf (m, c, n) r h0]
      rw [ih]
      have hm : matchEntry evalOf r = none :=
        matchEntry_eq_none_left evalOf r
          ⟨fun h1 => absurd (h0.symm.trans h1) (by decide),
           fun h1 => absurd (h0.symm.trans h1) (by decide)⟩
      have hc : conflictEntry evalOf r = none :=
        conflictEntry_eq_none_left evalOf r
          ⟨fun h1 => absurd (h0.symm.trans h1) (by decide),
           fun h1 => absurd (h0.symm.trans h1) (by decide)⟩
      simp [hm, hc, neutralTest, h0, Nat.add_comm, Nat.add_assoc, Nat.add_left_comm]
    · by_cases h1 : evalOf r.player_no = 1
      · by_cases himp : 0 < r.improvement
        · rw [tallyStep_match evalOf (m, c, n) r (Or.inl ⟨h1, himp⟩)]
          rw [ih]
          have hm : matchEntry evalOf r = some ⟨r.player_no, r.improvement⟩ := by
            simp [matchEntry, h1, himp]
          have hc : conflictEntry evalOf r = none :=
            conflictEntry_eq_none_left evalOf r ⟨fun _ => himp, fun hn => absurd (h1.symm.trans hn) (by decide)⟩
          simp [hm, hc, neutralTest, h0, List.append_assoc]
        · rw [tallyStep_conflict evalOf (m, c, n) r (Or.inl ⟨h1, himp⟩)]
          rw [ih]
          have hm : matchEntry evalOf r = none :=
            matchEntry_eq_none_left evalOf r ⟨fun _ => himp, fun hn => absurd (h1.symm.trans hn) (by decide)⟩
          have hc : conflictEntry evalOf r = some ⟨r.player_no, r.improvement⟩ := by
            simp [conflictEntry, h1, himp]
          simp [hm, hc, neutralTest, h0, List.append_assoc]
      · by_cases h2 : evalOf r.player_no = -1
        · by_cases himp : 0 < r.improvement
          · rw [tallyStep_conflict evalOf (m, c, n) r (Or.inr ⟨h2, himp⟩)]
            rw [ih]
            have hm : matchEntry evalOf r = none :=
              matchEntry_eq_none_left evalOf r ⟨fun hn => absurd hn h1, fun _ => himp⟩
            have hc : conflictEntry evalOf r = some ⟨r.player_no, r.improvement⟩ := by
              simp [conflictEntry, h1, h2, himp]
            simp [hm, hc, neutralTest, h0, List.append_assoc]
          · rw [tallyStep_match evalOf (m, c, n) r (Or.inr ⟨h2, himp⟩)]
            rw [ih]
            have hm : matchEntry evalOf r = some ⟨r.player_no, r.improvement⟩ := by
              simp [matchEntry, h1, h2, himp]
            have hc : conflictEntry evalOf r = none :=
              conflictEntry_eq_none_left evalOf r ⟨fun hn => absurd hn h1, fun _ => himp⟩
            simp [hm, hc, neutralTest, h0, List.append_assoc]
        · rw [tallyStep_skip evalOf (m, c, n) r h0 h1 h2]
          rw [ih]
          have hm : matchEntry evalOf r = none :=
            matchEntry_eq_none_left evalOf r ⟨fun hn => absurd hn h1, fun hn => absurd hn h2⟩
          have hc : conflictEntry evalOf r = none :=
            conflictEntry_eq_none_left evalOf r ⟨fun hn => absurd hn h1, fun hn => absurd hn h2⟩
          simp [hm, hc, neutralTest, h0]

theorem validate_eq (ps : List PlayerRow) (river : List Card) (h5 : river.length = 5) :
    validate_river_against_evaluations ps river =
      Except.ok ⟨((List.insertionSort impGeP (baseAnalysis ps river)).filterMap
          (conflictEntry (player_evaluation ps))).isEmpty,
        (List.insertionSort impGeP (baseAnalysis ps river)).filterMap
          (conflictEntry (player_evaluation ps)),
        (List.insertionSort impGeP (baseAnalysis ps river)).filterMap
          (matchEntry (player_evaluation ps)),
        (List.insertionSort impGeP (baseAnalysis ps river)).countP
          (neutralTest (player_evaluation ps)),
        List.insertionSort impGeP (baseAnalysis ps river)⟩ := by
  unfold validate_river_against_evaluations
  rw [analyze_eq ps river h5]
  have ht := tally_fold (player_evaluation ps)
    (List.insertionSort impGeP (baseAnalysis ps river)) [] [] 0
  simp only [List.nil_append, Nat.zero_add] at ht
  simp [Bind.bind, Except.bind, ht]

theorem player_evaluation_stops (no : Nat) :
    ∀ (ps : List PlayerRow) (z : Int), (∀ q ∈ ps, q.player_no ≠ no) →
      ps.foldl (fun acc p => if p.player_no = no then p.estimation else acc) z = z := by
  intro ps
  induction ps with
  | nil => intro z _; rfl
  | cons q ps ih =>
    intro z hq
    rw [List.foldl_cons, if_neg (hq q (List.mem_cons_self q ps))]
    exact ih z (fun r hr => hq r (List.mem_cons_of_mem q hr))

theorem player_evaluation_eq (ps : List PlayerRow) (p : PlayerRow)
    (hnd : (ps.map PlayerRow.player_no).Nodup) (hp : p ∈ ps) :
    player_evaluation ps p.player_no = p.estimation := by
  induction ps with
  | nil => cases hp
  | cons q ps ih =>
    rw [List.map_cons, List.nodup_cons] at hnd
    rcases List.mem_cons.mp hp with h | h
    · subst h
      have hrest : ∀ r ∈ ps, r.player_no ≠ p.player_no := by
        intro r hr heq
        exact hnd.1 (heq ▸ List.mem_map_of_mem PlayerRow.player_no hr)
      unfold player_evaluation
      rw [List.foldl_cons, if_pos rfl]
      exact player_evaluation_stops p.player_no ps p.estimation hrest
    · have hne : q.player_no ≠ p.player_no := by
        intro heq
        exact hnd.1 (heq ▸ List.mem_map_of_mem PlayerRow.player_no h)
      unfold player_evaluation
      rw [List.foldl_cons, if_neg hne]
      exact ih hnd.2 h

theorem matchEntry_some_inv {evalOf : Nat → Int} {r : AnalysisResult} {e : ValEntry}
    (h : matchEntry evalOf r = some e) :
    e = ⟨r.player_no, r.improvement⟩ ∧
      ((evalOf r.player_no = 1 ∧ 0 < r.improvement) ∨
       (evalOf r.player_no = -1 ∧ ¬ 0 < r.improvement)) := by
  unfold matchEntry at h
  split_ifs at h with h1 h2
  · exact ⟨(Option.some.inj h).symm, Or.inl h1⟩
  · exact ⟨(Option.some.inj h).symm, Or.inr h2⟩

theorem conflictEntry_some_inv {evalOf : Nat → Int} {r : AnalysisResult} {e : ValEntry}
    (h : conflictEntry evalOf r = some e) :
    e = ⟨r.player_no, r.improvement⟩ ∧
      ((evalOf r.player_no = 1 ∧ ¬ 0 < r.improvement) ∨
       (evalOf r.player_no = -1 ∧ 0 < r.improvement)) := by
  unfold conflictEntry at h
  split_ifs at h with h1 h2
  · exact ⟨(Option.some.inj h).symm, Or.inl h1⟩
  · exact ⟨(Option.some.inj h).symm, Or.inr h2⟩

theorem rowEntry_some_inv {river : List Card} {p : PlayerRow} {r : AnalysisResult}
    (h5 : river.length = 5) (h : rowEntry river p = some r) :
    r.player_no = p.player_no ∧
      ∃ a b, p.card1 = some a ∧ p.card2 = some b ∧
        r.improvement = known_improvement river a b := by
  rcases h1 : p.card1 with _ | a
  · rw [rowEntry_unknown river p (by simp [cardsOfRow, h1])] at h; cases h
  · rcases h2 : p.card2 with _ | b
    · rw [rowEntry_unknown river p (by simp [cardsOfRow, h1, h2])] at h; cases h
    · rw [rowEntry_known river p a b h1 h2 h5] at h
      have he := Option.some.inj h
      refine ⟨by rw [← he], a, b, rfl, rfl, by rw [← he]⟩

theorem mem_sorted_filterMap {f : AnalysisResult → Option ValEntry}
    {l : List AnalysisResult} {e : ValEntry} :
    e ∈ (List.insertionSort impGeP l).filterMap f ↔ e ∈ l.filterMap f := by
  constructor <;> intro h <;> rw [List.mem_filterMap] at h ⊢ <;>
    obtain ⟨r, hr, hfr⟩ := h
  · exact ⟨r, (List.perm_insertionSort impGeP l).mem_iff.mp hr, hfr⟩
  · exact ⟨r, (List.perm_insertionSort impGeP l).mem_iff.mpr hr, hfr⟩

theorem entry_player_iff (ps : List PlayerRow) (river : List Card) (p : PlayerRow)
    (a b : Card) (P : Int → Int → Prop) (f : AnalysisResult → Option ValEntry)
    (hinv : ∀ {r : AnalysisResult} {e : ValEntry}, f r = some e →
      e = ⟨r.player_no, r.improvement⟩ ∧ P (player_evaluation ps r.player_no) r.improvement)
    (hmk : ∀ r : AnalysisResult, P (player_evaluation ps r.player_no) r.improvement →
      f r = some ⟨r.player_no, r.improvement⟩)
    (h5 : river.length = 5) (hnd : (ps.map PlayerRow.player_no).Nodup) (hp : p ∈ ps)
    (hc1 : p.card1 = some a) (hc2 : p.card2 = some b) :
    (∃ e ∈ (List.insertionSort impGeP (baseAnalysis ps river)).filterMap f,
        e.player_no = p.player_no) ↔
      P p.estimation (known_improvement river a b) := by
  have hinjec := List.inj_on_of_nodup_map hnd
  constructor
  · rintro ⟨e, he, hpn⟩
    rw [mem_sorted_filterMap, List.mem_filterMap] at he
    obtain ⟨r, hrbase, hfr⟩ := he
    obtain ⟨heq, hcond⟩ := hinv hfr
    rw [baseAnalysis, List.mem_filterMap] at hrbase
    obtain ⟨p2, hp2, hrow⟩ := hrbase
    obtain ⟨hrpn, a2, b2, hb1, hb2, himp⟩ := rowEntry_some_inv h5 hrow
    have hepn : e.player_no = r.player_no := by rw [heq]
    have hpn2 : p2.player_no = p.player_no := by rw [← hrpn, ← hepn, hpn]
    have hpp : p2 = p := hinjec hp2 hp hpn2
    subst hpp
    have ha : a2 = a := by
      rw [hc1] at hb1; exact (Option.some.inj hb1).symm
    have hb : b2 = b := by
      rw [hc2] at hb2; exact (Option.some.inj hb2).symm
    subst ha; subst hb
    have hev : player_evaluation ps r.player_no = p2.estimation := by
      rw [hrpn]; exact player_evaluation_eq ps p2 hnd hp2
    rw [hev, himp] at hcond
    exact hcond
  · intro hcond
    have hrow := rowEntry_known river p a b hc1 hc2 h5
    have hrbase : (⟨p.player_no, [a, b], known_improvement river a b,
        seven_eval ([a, b] ++ river), catOf (seven_eval ([a, b] ++ river))⟩ : AnalysisResult) ∈
        baseAnalysis ps river :=
      List.mem_filterMap.mpr ⟨p, hp, hrow⟩
    have hev : player_evaluation ps p.player_no = p.estimation :=
      player_evaluation_eq ps p hnd hp
    have hfr := hmk (⟨p.player_no, [a, b], known_improvement river a b,
        seven_eval ([a, b] ++ river), catOf (seven_eval ([a, b] ++ river))⟩ : AnalysisResult)
      (by rw [show (⟨p.player_no, [a, b], known_improvement river a b,
        seven_eval ([a, b] ++ river), catOf (seven_eval ([a, b] ++ river))⟩ :
          AnalysisResult).player_no = p.player_no from rfl, hev]; exact hcond)
    exact ⟨⟨p.player_no, known_improvement river a b⟩,
      mem_sorted_filterMap.mpr (List.mem_filterMap.mpr ⟨_, hrbase, hfr⟩), rfl⟩

theorem no_entry_of_unknown (ps : List PlayerRow) (river : List Card) (p : PlayerRow)
    (f : AnalysisResult → Option ValEntry)
    (hinv : ∀ {r : AnalysisResult} {e : ValEntry}, f r = some e → e.player_no = r.player_no)
    (h5 : river.length = 5) (hnd : (ps.map PlayerRow.player_no).Nodup) (hp : p ∈ ps)
    (hun : cardsOfRow p = none) :
    ∀ e ∈ (List.insertionSort impGeP (baseAnalysis ps river)).filterMap f,
      e.player_no ≠ p.player_no := by
  have hinjec := List.inj_on_of_nodup_map hnd
  intro e he hpn
  rw [mem_sorted_filterMap, List.mem_filterMap] at he
  obtain ⟨r, hrbase, hfr⟩ := he
  rw [baseAnalysis, List.mem_filterMap] at hrbase
  obtain ⟨p2, hp2, hrow⟩ := hrbase
  obtain ⟨hrpn, a2, b2, hb1, hb2, _⟩ := rowEntry_some_inv h5 hrow
  have hpn2 : p2.player_no = p.player_no := by rw [← hrpn, ← hinv hfr, hpn]
  have hpp : p2 = p := hinjec hp2 hp hpn2
  subst hpp
  rw [show cardsOfRow p2 = some [a2, b2] from by simp [cardsOfRow, hb1, hb2]] at hun
  cases hun

theorem neutral_count_eq (ps : List PlayerRow) (river : List Card)
    (h5 : river.length = 5) (hnd : (ps.map PlayerRow.player_no).Nodup) :
    (List.insertionSort impGeP (baseAnalysis ps river)).countP
        (neutralTest (player_evaluation ps)) =
      (ps.filter isNeutralRow).length := by
  rw [(List.perm_insertionSort impGeP (baseAnalysis ps river)).countP_eq]
  rw [baseAnalysis, List.countP_filterMap, ← List.countP_eq_length_filter]
  apply List.countP_congr
  intro p hp
  rcases h1 : p.card1 with _ | a
  · rw [rowEntry_unknown river p (by simp [cardsOfRow, h1])]
    simp [isNeutralRow, h1]
  · rcases h2 : p.card2 with _ | b
    · rw [rowEntry_unknown river p (by simp [cardsOfRow, h1, h2])]
      simp [isNeutralRow, h1, h2]
    · rw [rowEntry_known river p a b h1 h2 h5]
      have hev : player_evaluation ps p.player_no = p.estimation :=
        player_evaluation_eq ps p hnd hp
      simp [neutralTest, isNeutralRow, h1, h2, hev]

theorem validate_ok (ps : List PlayerRow) (river : List Card) (h5 : river.length = 5) :
    ∃ v, validate_river_against_evaluations ps river = Except.ok v :=
  ⟨_, validate_eq ps river h5⟩

theorem search_fold (players : List PlayerRow) :
    ∀ (l : List (List Card)) (acc : List (List Card × ValidationResult)),
      (∀ r ∈ l, ∃ v, validate_river_against_evaluations players r = Except.ok v) →
      l.foldlM (searchStep players) acc =
        Except.ok (acc ++ l.filterMap (validPick players)) := by
  intro l
  induction l with
  | nil =>
    intro acc _
    simp only [List.foldlM_nil, List.filterMap_nil, List.append_nil]
    rfl
  | cons r l ih =>
    intro acc hall
    obtain ⟨v, hv⟩ := hall r (List.mem_cons_self r l)
    have hrest : ∀ s ∈ l, ∃ w, validate_river_against_evaluations players s = Except.ok w :=
      fun s hs => hall s (List.mem_cons_of_mem r hs)
    rw [List.foldlM_cons]
    have hstep : searchStep players acc r =
        Except.ok (if v.is_valid then acc ++ [(r, v)] else acc) := by
      simp [searchStep, hv]
      rfl
    rw [hstep]
    have hpick : validPick players r = if v.is_valid then some (r, v) else none := by
      simp [validPick, hv]
    show l.foldlM (searchStep players) _ = _
    rw [ih _ hrest]
    by_cases hval : v.is_valid <;> simp [hval, hpick, List.append_assoc]

theorem filterMap_replicate_some {α β : Type} {f : α → Option β} {a : α} {b : β}
    (h : f a = some b) : ∀ n, (List.replicate n a).filterMap f = List.replicate n b := by
  intro n
  induction n with
  | zero => rfl
  | succ n ih => rw [List.replicate_succ, List.replicate_succ, List.filterMap_cons, h, ih]

theorem take_of_replicate_more {α : Type} (a : α) :
    ∀ (n m : Nat), n ≤ m → (List.replicate m a).take n = List.replicate n a := by
  intro n
  induction n with
  | zero => intro m _; rfl
  | succ n ih =>
    intro m hm
    cases m with
    | zero => cases hm
    | succ m =>
      rw [List.replicate_succ, List.replicate_succ, List.take_succ_cons,
        ih m (Nat.le_of_succ_le_succ hm)]

theorem deck_complete : ∀ c : Card, c ∈ deck := by decide

/-- C1: for every set of 7 unique valid cards, the hand-ranking function
`evaluate_hand` returns exactly the minimum (best, i.e. lowest) strength over
the evaluations of all C(7,5) = 21 five-card subsets of the input. -/
theorem evaluate_hand_seven_card_min (cs : List Card) (h7 : cs.length = 7)
    (_hnd : cs.Nodup) :
    (List.sublistsLen 5 cs).length = 21 ∧
    ∃ s, evaluate_hand cs = Except.ok s ∧
      (∀ t ∈ List.sublistsLen 5 cs, s ≤ five_eval t) ∧
      ∃ t ∈ List.sublistsLen 5 cs, five_eval t = s := by
  have hlen : (List.sublistsLen 5 cs).length = 21 := by
    rw [List.length_sublistsLen, h7]
    decide
  refine ⟨hlen, seven_eval cs, by simp [evaluate_hand, h7], ?_, ?_⟩
  · intro t ht
    exact listMin_le (List.mem_map_of_mem five_eval ht)
  · have hne : (List.sublistsLen 5 cs).map five_eval ≠ [] := by
      intro hcon
      have := congrArg List.length hcon
      rw [List.length_map, hlen] at this
      cases this
    have hmem := listMin_mem hne
    rw [List.mem_map] at hmem
    obtain ⟨t, ht, heq⟩ := hmem
    exact ⟨t, ht, heq⟩

/-- Witness for C1 at a concrete seven-card hand (As Ah Ad 7c 7d 2s 9h). -/
theorem evaluate_hand_seven_card_min_witness :
    wSeven.length = 7 ∧ wSeven.Nodup ∧
    ((List.sublistsLen 5 wSeven).length = 21 ∧
      ∃ s, evaluate_hand wSeven = Except.ok s ∧
        (∀ t ∈ List.sublistsLen 5 wSeven, s ≤ five_eval t) ∧
        ∃ t ∈ List.sublistsLen 5 wSeven, five_eval t = s) :=
  ⟨by decide, by decide, evaluate_hand_seven_card_min wSeven (by decide) (by decide)⟩

/-- C3 (counterexample): a six-card hand does not succeed — `evaluate_hand`
rejects it with the hand-size error, refuting the claim that every card count
in [5,7] is accepted. -/
theorem evaluate_hand_rejects_six_cards :
    wSix.length = 6 ∧ evaluate_hand wSix = Except.error "Hand must have 5 or 7 cards" :=
  ⟨rfl, rfl⟩

/-- C3 (amended): the hand-ranking function accepts exactly the inputs with
card count 5 or 7, and fails with the hand-size error exactly when the count
is neither 5 nor 7 (in particular, 6-card hands fail). -/
theorem evaluate_hand_size_gate (cs : List Card) :
    evalIsOk (evaluate_hand cs) = (decide (cs.length = 5) || decide (cs.length = 7)) := by
  unfold evaluate_hand evalIsOk
  split_ifs with h1 h2
  · simp [h1]
  · simp [h1, h2]
  · simp [h1, h2]

/-- C5: for every 2-card hole pair and 5-card board, `check_hand_improvement`
returns improvement equal to the board-alone strength minus the 7-card hand
strength, so improvement is strictly positive iff the player's hand is
strictly better (strictly lower strength) than the board alone. -/
theorem check_hand_improvement_formula (pc rc : List Card) (h2 : pc.length = 2)
    (h5 : rc.length = 5) :
    ∃ d, check_hand_improvement pc rc = Except.ok d ∧
      d.baseline_score = five_eval rc ∧
      d.player_score = seven_eval (pc ++ rc) ∧
      d.improvement = (five_eval rc : Int) - (seven_eval (pc ++ rc) : Int) ∧
      (0 < d.improvement ↔ seven_eval (pc ++ rc) < five_eval rc) := by
  refine ⟨_, check_hand_improvement_ok pc rc h2 h5, rfl, rfl, rfl, ?_⟩
  show 0 < (five_eval rc : Int) - (seven_eval (pc ++ rc) : Int) ↔ _
  omega

/-- Witness for C5 at a concrete hole pair (As Ah) and board (Ad 7c 7d 2s 9h). -/
theorem check_hand_improvement_formula_witness :
    wHole.length = 2 ∧ wBoard.length = 5 ∧
    (∃ d, check_hand_improvement wHole wBoard = Except.ok d ∧
      d.baseline_score = five_eval wBoard ∧
      d.player_score = seven_eval (wHole ++ wBoard) ∧
      d.improvement = (five_eval wBoard : Int) - (seven_eval (wHole ++ wBoard) : Int) ∧
      (0 < d.improvement ↔ seven_eval (wHole ++ wBoard) < five_eval wBoard)) :=
  ⟨by decide, by decide, check_hand_improvement_formula wHole wBoard (by decide) (by decide)⟩

/-- C6: for every player table, the remaining deck and the known cards
partition the 52-card universe: their union is the deck and their
intersection is empty. -/
theorem build_exclusion_partition (ps : List PlayerRow) (c : Card) :
    ((c ∈ (build_exclusion_table ps).remaining_deck ∨
      c ∈ (build_exclusion_table ps).known_cards) ↔ c ∈ deck) ∧
    ¬ (c ∈ (build_exclusion_table ps).remaining_deck ∧
       c ∈ (build_exclusion_table ps).known_cards) := by
  have hdeck := deck_complete c
  unfold build_exclusion_table
  by_cases hk : c ∈ (ps.foldl exclusionStep ([], [])).1
  · simp [List.mem_filter, hk, hdeck]
  · simp [List.mem_filter, hk, hdeck]

/-- C10: the analysis list returned by `analyze_players_for_river` is sorted
by improvement in descending order (largest improvement first). -/
theorem analyze_sorted_by_improvement (ps : List PlayerRow) (river : List Card)
    (l : List AnalysisResult) (h : analyze_players_for_river ps river = Except.ok l) :
    l.Pairwise (fun x y => y.improvement ≤ x.improvement) := by
  unfold analyze_players_for_river at h
  cases hf : ps.foldlM (analyzeStep river) [] with
  | error e =>
    rw [hf] at h
    exact Except.noConfusion h
  | ok results =>
    rw [hf] at h
    have hok : Except.ok (List.insertionSort impGeP results) = Except.ok l := h
    have hl : l = List.insertionSort impGeP results := (Except.ok.inj hok).symm
    subst hl
    exact List.Pairwise.imp (fun hab => hab) (List.sorted_insertionSort impGeP results)

/-- Witness for C10 at the concrete sample players and river. -/
theorem analyze_sorted_by_improvement_witness :
    analyze_players_for_river wPlayers wBoard = Except.ok wAnalysis ∧
    wAnalysis.Pairwise (fun x y => y.improvement ≤ x.improvement) :=
  ⟨by rfl, analyze_sorted_by_improvement wPlayers wBoard wAnalysis (by rfl)⟩

/-- C2: for every player list and candidate board, validation reports an
Improved (Estimation 1) player as a match iff their improvement > 0 and a
conflict iff improvement <= 0; a NotImproved (Estimation -1) player as a
match iff improvement <= 0 and a conflict iff improvement > 0; a Neutral
(Estimation 0) player in neither list; and `is_valid` holds iff the conflict
list is empty (so a board with zero non-neutral players is valid). -/
theorem validate_consistency (ps : List PlayerRow) (river : List Card)
    (h5 : river.length = 5) (hnd : (ps.map PlayerRow.player_no).Nodup) :
    ∃ v, validate_river_against_evaluations ps river = Except.ok v ∧
      (∀ p ∈ ps, ∀ a b : Card, p.card1 = some a → p.card2 = some b →
        (p.estimation = 1 →
          ((∃ e ∈ v.matchesList, e.player_no = p.player_no) ↔
            0 < known_improvement river a b) ∧
          ((∃ e ∈ v.conflicts, e.player_no = p.player_no) ↔
            known_improvement river a b ≤ 0)) ∧
        (p.estimation = -1 →
          ((∃ e ∈ v.matchesList, e.player_no = p.player_no) ↔
            known_improvement river a b ≤ 0) ∧
          ((∃ e ∈ v.conflicts, e.player_no = p.player_no) ↔
            0 < known_improvement river a b)) ∧
        (p.estimation = 0 →
          (∀ e ∈ v.matchesList, e.player_no ≠ p.player_no) ∧
          (∀ e ∈ v.conflicts, e.player_no ≠ p.player_no))) ∧
      (v.is_valid = true ↔ v.conflicts = []) := by
  refine ⟨_, validate_eq ps river h5, ?_, List.isEmpty_iff⟩
  intro p hp a b hc1 hc2
  have hmatch := entry_player_iff ps river p a b
    (fun ev imp => (ev = 1 ∧ 0 < imp) ∨ (ev = -1 ∧ ¬ 0 < imp))
    (matchEntry (player_evaluation ps))
    (fun h => matchEntry_some_inv h)
    (fun r hr => by
      rcases hr with ⟨h1, himp⟩ | ⟨h1, himp⟩
      · simp [matchEntry, h1, himp]
      · simp [matchEntry, h1, himp])
    h5 hnd hp hc1 hc2
  have hconf := entry_player_iff ps river p a b
    (fun ev imp => (ev = 1 ∧ ¬ 0 < imp) ∨ (ev = -1 ∧ 0 < imp))
    (conflictEntry (player_evaluation ps))
    (fun h => conflictEntry_some_inv h)
    (fun r hr => by
      rcases hr with ⟨h1, himp⟩ | ⟨h1, himp⟩
      · simp [conflictEntry, h1, himp]
      · simp [conflictEntry, h1, himp])
    h5 hnd hp hc1 hc2
  refine ⟨?_, ?_, ?_⟩
  · intro hest
    constructor
    · exact hmatch.trans (by rw [hest]; simp)
    · exact hconf.trans (by rw [hest]; simp [not_lt])
  · intro hest
    constructor
    · exact hmatch.trans (by rw [hest]; simp [not_lt])
    · exact hconf.trans (by rw [hest]; simp)
  · intro hest
    constructor
    · intro e he heq
      exact absurd (hmatch.mp ⟨e, he, heq⟩) (by rw [hest]; simp)
    · intro e he heq
      exact absurd (hconf.mp ⟨e, he, heq⟩) (by rw [hest]; simp)

/-- Witness for C2 at the concrete sample players and river. -/
theorem validate_consistency_witness :
    wBoard.length = 5 ∧ (wPlayers.map PlayerRow.player_no).Nodup ∧
    (∃ v, validate_river_against_evaluations wPlayers wBoard = Except.ok v ∧
      (∀ p ∈ wPlayers, ∀ a b : Card, p.card1 = some a → p.card2 = some b →
        (p.estimation = 1 →
          ((∃ e ∈ v.matchesList, e.player_no = p.player_no) ↔
            0 < known_improvement wBoard a b) ∧
          ((∃ e ∈ v.conflicts, e.player_no = p.player_no) ↔
            known_improvement wBoard a b ≤ 0)) ∧
        (p.estimation = -1 →
          ((∃ e ∈ v.matchesList, e.player_no = p.player_no) ↔
            known_improvement wBoard a b ≤ 0) ∧
          ((∃ e ∈ v.conflicts, e.player_no = p.player_no) ↔
            0 < known_improvement wBoard a b)) ∧
        (p.estimation = 0 →
          (∀ e ∈ v.matchesList, e.player_no ≠ p.player_no) ∧
          (∀ e ∈ v.conflicts, e.player_no ≠ p.player_no))) ∧
      (v.is_valid = true ↔ v.conflicts = [])) :=
  ⟨by decide, by decide, validate_consistency wPlayers wBoard (by decide) (by decide)⟩

/-- C9: validation silently skips a player with an unknown hole-card slot:
no match entry, no conflict entry, and no contribution to `neutral_count`,
which counts exactly the players with two known cards and Estimation 0. -/
theorem validate_skips_unknown_players (ps : List PlayerRow) (river : List Card)
    (h5 : river.length = 5) (hnd : (ps.map PlayerRow.player_no).Nodup) :
    ∃ v, validate_river_against_evaluations ps river = Except.ok v ∧
      (∀ p ∈ ps, cardsOfRow p = none →
        (∀ e ∈ v.matchesList, e.player_no ≠ p.player_no) ∧
        (∀ e ∈ v.conflicts, e.player_no ≠ p.player_no)) ∧
      v.neutral_count = (ps.filter isNeutralRow).length := by
  refine ⟨_, validate_eq ps river h5, ?_, neutral_count_eq ps river h5 hnd⟩
  intro p hp hun
  constructor
  · exact no_entry_of_unknown ps river p (matchEntry (player_evaluation ps))
      (fun h => by rw [(matchEntry_some_inv h).1]) h5 hnd hp hun
  · exact no_entry_of_unknown ps river p (conflictEntry (player_evaluation ps))
      (fun h => by rw [(conflictEntry_some_inv h).1]) h5 hnd hp hun

/-- Witness for C9 at the concrete sample players (player 3 has an unknown
card) and river. -/
theorem validate_skips_unknown_players_witness :
    wBoard.length = 5 ∧ (wPlayers.map PlayerRow.player_no).Nodup ∧
    (∃ v, validate_river_against_evaluations wPlayers wBoard = Except.ok v ∧
      (∀ p ∈ wPlayers, cardsOfRow p = none →
        (∀ e ∈ v.matchesList, e.player_no ≠ p.player_no) ∧
        (∀ e ∈ v.conflicts, e.player_no ≠ p.player_no)) ∧
      v.neutral_count = (wPlayers.filter isNeutralRow).length) :=
  ⟨by decide, by decide, validate_skips_unknown_players wPlayers wBoard (by decide) (by decide)⟩

/-- C7: for every player list, candidate sequence and limit, the search driver
returns exactly the valid candidates among the first min(limit, total)
candidates, in generator order. -/
theorem find_valid_rivers_prefix_filter (ps : List PlayerRow)
    (combos : List (List Card)) (n : Nat) (hall : ∀ r ∈ combos, r.length = 5) :
    find_valid_rivers ps combos n =
      Except.ok ((combos.take n).filterMap (validPick ps)) := by
  unfold find_valid_rivers
  have hvalid : ∀ r ∈ combos.take n,
      ∃ v, validate_river_against_evaluations ps r = Except.ok v :=
    fun r hr => validate_ok ps r (hall r ((List.take_sublist n combos).subset hr))
  rw [search_fold ps (combos.take n) [] hvalid, List.nil_append]

/-- Witness for C7 at the concrete sample players, a one-candidate sequence
and limit 3. -/
theorem find_valid_rivers_prefix_filter_witness :
    (∀ r ∈ [wBoard], r.length = 5) ∧
    find_valid_rivers wPlayers [wBoard] 3 =
      Except.ok (([wBoard].take 3).filterMap (validPick wPlayers)) :=
  ⟨by decide, find_valid_rivers_prefix_filter wPlayers [wBoard] 3 (by decide)⟩

/-- C4 (counterexample): with no limit supplied the search uses the default
cap `max_to_check=1000`: on a 1001-candidate sequence whose every candidate
is valid, only the first 1000 are examined and returned, so the default is a
fixed cap, not unbounded. -/
theorem find_valid_rivers_default_capped :
    bigCombos.length = 1001 ∧
    validate_river_against_evaluations [] wBoard = Except.ok emptyValidation ∧
    emptyValidation.is_valid = true ∧
    find_valid_rivers_default [] bigCombos =
      Except.ok (List.replicate 1000 (wBoard, emptyValidation)) ∧
    (List.replicate 1000 (wBoard, emptyValidation)).length ≠ bigCombos.length := by
  have hval : validate_river_against_evaluations [] wBoard = Except.ok emptyValidation := by
    rfl
  have hbig : bigCombos.length = 1001 := by
    unfold bigCombos
    rw [List.length_replicate]
  refine ⟨hbig, hval, rfl, ?_, by rw [List.length_replicate, hbig]; decide⟩
  unfold find_valid_rivers_default find_valid_rivers
  have htake : bigCombos.take 1000 = List.replicate 1000 wBoard := by
    unfold bigCombos
    exact take_of_replicate_more wBoard 1000 1001 (by omega)
  rw [htake]
  have hvalid : ∀ r ∈ List.replicate 1000 wBoard,
      ∃ v, validate_river_against_evaluations [] r = Except.ok v := by
    intro r hr
    rw [List.eq_of_mem_replicate hr]
    exact ⟨emptyValidation, hval⟩
  rw [search_fold [] (List.replicate 1000 wBoard) [] hvalid, List.nil_append]
  have hpick : validPick [] wBoard = some (wBoard, emptyValidation) := by
    rw [validPick, hval]
    rfl
  rw [filterMap_replicate_some hpick 1000]

/-- C4 (amended): when the caller does not supply `max_to_check`, the search
driver examines only the first 1000 candidates of the sequence — the default
is the fixed cap 1000, not unbounded — returning the valid candidates of
that prefix. -/
theorem find_valid_rivers_default_prefix (ps : List PlayerRow)
    (combos : List (List Card)) (hall : ∀ r ∈ combos, r.length = 5) :
    find_valid_rivers_default ps combos =
      Except.ok ((combos.take 1000).filterMap (validPick ps)) := by
  unfold find_valid_rivers_default find_valid_rivers
  have hvalid : ∀ r ∈ combos.take 1000,
      ∃ v, validate_river_against_evaluations ps r = Except.ok v :=
    fun r hr => validate_ok ps r (hall r ((List.take_sublist 1000 combos).subset hr))
  rw [search_fold ps (combos.take 1000) [] hvalid, List.nil_append]

/-- Witness for the amended C4 at the concrete sample players and a
one-candidate sequence. -/
theorem find_valid_rivers_default_prefix_witness :
    (∀ r ∈ [wBoard], r.length = 5) ∧
    find_valid_rivers_default wPlayers [wBoard] =
      Except.ok (([wBoard].take 1000).filterMap (validPick wPlayers)) :=
  ⟨by decide, find_valid_rivers_default_prefix wPlayers [wBoard] (by decide)⟩

theorem mem_addKnown (ks : List Card) (c d : Card) :
    c ∈ addKnown ks d ↔ c ∈ ks ∨ c = d := by
  unfold addKnown
  split_ifs with hd
  · constructor
    · exact Or.inl
    · rintro (hc | rfl)
      · exact hc
      · exact hd
  · simp [List.mem_append]

theorem nodup_addKnown (ks : List Card) (d : Card) (h : ks.Nodup) :
    (addKnown ks d).Nodup := by
  unfold addKnown
  split_ifs with hd
  · exact h
  · simp [List.nodup_append, h, hd]

theorem exclusion_fold_mem (c : Card) :
    ∀ (ps : List PlayerRow) (acc : List Card × List (Nat × Nat)),
      c ∈ (ps.foldl exclusionStep acc).1 ↔
        c ∈ acc.1 ∨ ∃ p ∈ ps, p.card1 = some c ∨ p.card2 = some c := by
  intro ps
  induction ps with
  | nil => intro acc; simp
  | cons p ps ih =>
    intro acc
    rw [List.foldl_cons, ih (exclusionStep acc p)]
    have hstep : c ∈ (exclusionStep acc p).1 ↔
        c ∈ acc.1 ∨ p.card1 = some c ∨ p.card2 = some c := by
      unfold exclusionStep
      rcases h1 : p.card1 with _ | a <;> rcases h2 : p.card2 with _ | b <;>
        simp [mem_addKnown, h1, h2, eq_comm, or_assoc]
    rw [hstep]
    constructor
    · rintro (hl | hr)
      · rcases hl with h | h
        · exact Or.inl h
        · exact Or.inr ⟨p, List.mem_cons_self p ps, h⟩
      · obtain ⟨q, hq, hcq⟩ := hr
        exact Or.inr ⟨q, List.mem_cons_of_mem p hq, hcq⟩
    · rintro (hl | hr)
      · exact Or.inl (Or.inl hl)
      · obtain ⟨q, hq, hcq⟩ := hr
        rcases List.mem_cons.mp hq with rfl | hq2
        · exact Or.inl (Or.inr hcq)
        · exact Or.inr ⟨q, hq2, hcq⟩

theorem exclusion_fold_nodup :
    ∀ (ps : List PlayerRow) (acc : List Card × List (Nat × Nat)),
      acc.1.Nodup → (ps.foldl exclusionStep acc).1.Nodup := by
  intro ps
  induction ps with
  | nil => intro acc h; exact h
  | cons p ps ih =>
    intro acc h
    rw [List.foldl_cons]
    apply ih
    unfold exclusionStep
    rcases h1 : p.card1 with _ | a <;> rcases h2 : p.card2 with _ | b <;> simp [h1, h2]
    · exact h
    · exact nodup_addKnown acc.1 b h
    · exact nodup_addKnown acc.1 a h
    · exact nodup_addKnown (addKnown acc.1 a) b (nodup_addKnown acc.1 a h)

/-- C8 (counterexample): the same card As is assigned to two different
players, yet deck resolution succeeds — no error is raised, the duplicate is
silently merged (As appears once in the known cards), and a normal table is
returned; the claimed DuplicateCardError does not exist in the code. -/
theorem build_exclusion_accepts_duplicate :
    (dupPlayers.map PlayerRow.player_no).Nodup ∧
    dupPlayers.map PlayerRow.card1 = [some ⟨12, 0⟩, some ⟨12, 0⟩] ∧
    (build_exclusion_table dupPlayers).known_cards = [⟨12, 0⟩, ⟨12, 1⟩, ⟨11, 1⟩] ∧
    (build_exclusion_table dupPlayers).unknowns = [] ∧
    (build_exclusion_table dupPlayers).remaining_deck.length = 49 := by
  decide

/-- C8 (amended): deck resolution never fails: a card assigned to two
different players is merged into the known set (which holds each card at
most once) rather than raising an error — the known cards are exactly the
cards some player is assigned. -/
theorem build_exclusion_dedups (ps : List PlayerRow) :
    (build_exclusion_table ps).known_cards.Nodup ∧
    ∀ c : Card, c ∈ (build_exclusion_table ps).known_cards ↔
      ∃ p ∈ ps, p.card1 = some c ∨ p.card2 = some c := by
  constructor
  · show (ps.foldl exclusionStep ([], [])).1.Nodup
    exact exclusion_fold_nodup ps ([], []) List.nodup_nil
  · intro c
    show c ∈ (ps.foldl exclusionStep ([], [])).1 ↔ _
    rw [exclusion_fold_mem c ps ([], [])]
    simp
